import Mathlib

/-!
Verification of the MCPilot XML-style tool request parser
(`src/services/parser/xml-parser.ts`).

The parser operates on JavaScript strings; we embed strings as `List Char`
and JavaScript runtime values as the inductive `JsValue`.  The regex-driven
scanning loops of the source are embedded as explicit scanning functions with
the same leftmost-match / lazy-quantifier semantics:

* `parseToolRequests` uses `/(<use_mcp_tool>[\s\S]*?<\/use_mcp_tool>)/g`:
  a match starts at the first occurrence of the literal opening tag and ends
  at the first occurrence of the literal closing tag after it
  (`extractBlocks`, `extractInner`).
* `parseParameters` uses `/<([^>]+)>([\s\S]*?)<\/\1>/g`: at a match position,
  the tag name is forced to be the (nonempty) run of characters strictly
  between `<` and the first following `>`, and the lazy body ends at the first
  occurrence of `</name>`; on failure the scan advances one position
  (`scanTag`).

JavaScript `Number(string)` conversion is embedded by `jsToNumber`
(`none` = NaN); values are exact rationals, so the IEEE-754 rounding of huge
literals is not modelled — no claim below depends on the rounded value of a
numeric literal, only on NaN-ness (which is decided by the string numeric
grammar) and on small integer values that doubles represent exactly.
`JSON.parse` is embedded by `jsonParse` (strict JSON grammar, last duplicate
key wins, `none` = SyntaxError).
-/

namespace MCPilot

abbrev Chars := List Char

/-- Index of the first occurrence of `pat` as a contiguous sublist of `s`
(the leftmost position where a regex literal `pat` matches). -/
def findSub (pat : Chars) : Chars → Option Nat
  | [] => if pat.isPrefixOf ([] : Chars) then some 0 else none
  | c :: t => if pat.isPrefixOf (c :: t) then some 0 else (findSub pat t).map (· + 1)

/-- Index of the first `'>'` in `t`, if any.  The backtracking regex
`<([^>]+)>` forces the group to be exactly the (nonempty) run of non-`>`
characters between `<` and the first following `>`. -/
def gtIdx : Chars → Option Nat
  | [] => none
  | c :: t => if c = '>' then some 0 else (gtIdx t).map (· + 1)

/-- Closing tag literal `</name>` for a tag name. -/
def closeFor (name : Chars) : Chars := '<' :: '/' :: (name ++ ['>'])

/-- One step of the global regex `/<([^>]+)>([\s\S]*?)<\/\1>/g`: find the
leftmost match in `s`, returning the tag name, the (lazy, hence shortest)
inner content, and the remainder of the input after the match.  When a
candidate position fails (no `>`, empty name `<>`, or no matching closing
tag), the regex engine advances the start position by one character. -/
def scanTag : Chars → Option (Chars × Chars × Chars)
  | [] => none
  | c :: t =>
    if c = '<' then
      match gtIdx t with
      | some i =>
        if i = 0 then scanTag t
        else
          match findSub (closeFor (t.take i)) (t.drop (i + 1)) with
          | some r =>
            some (t.take i, (t.drop (i + 1)).take r,
              (t.drop (i + 1)).drop (r + (closeFor (t.take i)).length))
          | none => scanTag t
      | none => scanTag t
    else scanTag t


/-- JavaScript number values reachable in this program: exact rationals plus
the two infinities.  NaN is represented externally by `Option.none`. -/
inductive JsNum where
  | finite (q : ℚ)
  | posInf
  | negInf
deriving DecidableEq

/-- JavaScript runtime values flowing through the parser: `undefined`, `null`,
booleans, numbers, strings, arrays and plain objects (assoc lists in property
insertion order). -/
inductive JsValue where
  | undefined
  | null
  | bool (b : Bool)
  | num (n : JsNum)
  | str (s : String)
  | arr (elems : List JsValue)
  | obj (fields : List (String × JsValue))

/-- Truthiness of a JavaScript number: `0` is falsy, everything else truthy. -/
def JsNum.truthy : JsNum → Bool
  | .finite q => decide (q ≠ 0)
  | .posInf => true
  | .negInf => true

/-- JavaScript truthiness (the semantics of `!v` in the source is
`!v.truthy`). -/
def JsValue.truthy : JsValue → Bool
  | .undefined => false
  | .null => false
  | .bool b => b
  | .num n => n.truthy
  | .str s => !s.isEmpty
  | .arr _ => true
  | .obj _ => true

/-- Whether `typeof v === "string"`. -/
def JsValue.typeofString : JsValue → Bool
  | .str _ => true
  | _ => false

/-- Whether `typeof v === "object"` (true for `null`, arrays and objects). -/
def JsValue.typeofObject : JsValue → Bool
  | .null => true
  | .arr _ => true
  | .obj _ => true
  | _ => false

/-- JavaScript property assignment `m[k] = v` on a plain object: overwrite in
place if the key exists, otherwise append the new binding. -/
def setKey (m : List (String × JsValue)) (k : String) (v : JsValue) :
    List (String × JsValue) :=
  if m.any (fun p => p.1 = k) then m.map (fun p => if p.1 = k then (k, v) else p)
  else m ++ [(k, v)]

/-- Property lookup on a plain object. -/
def getKey (m : List (String × JsValue)) (k : String) : Option JsValue :=
  (m.find? (fun p => p.1 = k)).map (·.2)

/-- JavaScript property access `m.k`: `undefined` when the key is absent. -/
def jsGet (m : List (String × JsValue)) (k : String) : JsValue :=
  (getKey m k).getD .undefined

/-! ## JavaScript string trimming and `Number(string)` conversion -/

/-- Whitespace recognized by `String.prototype.trim` and by `Number()`
(common ASCII subset; exotic Unicode space characters are not modelled —
every string reaching `trim` in the claims is ASCII). -/
def isJsWs (c : Char) : Bool :=
  c == ' ' || c == '\t' || c == '\n' || c == '\r' || c == '\x0b' || c == '\x0c'

/-- JavaScript `value.trim()`. -/
def jsTrim (s : Chars) : Chars :=
  ((s.dropWhile isJsWs).reverse.dropWhile isJsWs).reverse

def isDecDigit (c : Char) : Bool := '0' ≤ c && c ≤ '9'

def isHexDigit (c : Char) : Bool :=
  isDecDigit c || ('a' ≤ c && c ≤ 'f') || ('A' ≤ c && c ≤ 'F')

def isOctDigit (c : Char) : Bool := '0' ≤ c && c ≤ '7'

def isBinDigit (c : Char) : Bool := c == '0' || c == '1'

def decDigitVal (c : Char) : Nat := c.toNat - 48

def hexDigitVal (c : Char) : Nat :=
  if isDecDigit c then c.toNat - 48
  else if 'a' ≤ c && c ≤ 'f' then c.toNat - 87
  else c.toNat - 55

def digitsToNat (ds : Chars) : Nat := ds.foldl (fun a c => a * 10 + decDigitVal c) 0

def hexToNat (ds : Chars) : Nat := ds.foldl (fun a c => a * 16 + hexDigitVal c) 0

def octToNat (ds : Chars) : Nat := ds.foldl (fun a c => a * 8 + decDigitVal c) 0

def binToNat (ds : Chars) : Nat := ds.foldl (fun a c => a * 2 + decDigitVal c) 0

/-- Exponent digits at the very end of a numeric literal: at least one decimal
digit and nothing after them. -/
def expDigits (r : Chars) : Option Int :=
  if !r.isEmpty && r.all isDecDigit then some (digitsToNat r) else none

/-- Parse the remainder of a string numeric literal after the mantissa: either
empty (exponent 0) or `e`/`E`, an optional sign, and digits reaching the end
of the string. -/
def parseExpTail : Chars → Option Int
  | [] => some 0
  | c :: r =>
    if c = 'e' ∨ c = 'E' then
      match r with
      | '+' :: r2 => expDigits r2
      | '-' :: r2 => (expDigits r2).map (fun n => -n)
      | _ => expDigits r
    else none

/-- Integer power of ten as a rational (`e` may be negative). -/
def tenPow (e : Int) : ℚ := (10 : ℚ) ^ e

/-- ECMAScript `StrUnsignedDecimalLiteral` (excluding `Infinity`), consuming
the entire input: `digits [. digits] [exp]`, `. digits [exp]`; the value is
the exact rational `mantissa * 10^exp`. -/
def parseUnsignedDec (t : Chars) : Option ℚ :=
  let intD := t.takeWhile isDecDigit
  let r1 := t.dropWhile isDecDigit
  match r1 with
  | '.' :: r2 =>
    let fracD := r2.takeWhile isDecDigit
    let r3 := r2.dropWhile isDecDigit
    if intD.isEmpty && fracD.isEmpty then none
    else
      (parseExpTail r3).map (fun e =>
        ((digitsToNat (intD ++ fracD) : ℚ) / (10 : ℚ) ^ fracD.length) * tenPow e)
  | _ =>
    if intD.isEmpty then none
    else (parseExpTail r1).map (fun e => (digitsToNat intD : ℚ) * tenPow e)

/-- ECMAScript `StrDecimalLiteral`: optional sign, then an unsigned decimal
literal or `Infinity`. -/
def decSigned (t : Chars) : Option JsNum :=
  match t with
  | '+' :: r => (parseUnsignedDec r).map (fun q => .finite q)
  | '-' :: r => (parseUnsignedDec r).map (fun q => .finite (-q))
  | _ => (parseUnsignedDec t).map .finite

/-- ECMAScript `StrNumericLiteral` over a whitespace-trimmed, nonempty string:
signed `Infinity`, an unsigned non-decimal integer literal (`0x`/`0o`/`0b`),
or a signed decimal literal. -/
def parseStrNum (t : Chars) : Option JsNum :=
  if t = "Infinity".data ∨ t = "+Infinity".data then some .posInf
  else if t = "-Infinity".data then some .negInf
  else
    match t with
    | '0' :: x :: ds =>
      if (x = 'x' ∨ x = 'X') ∧ ¬ds.isEmpty ∧ ds.all isHexDigit then
        some (.finite (hexToNat ds))
      else if (x = 'o' ∨ x = 'O') ∧ ¬ds.isEmpty ∧ ds.all isOctDigit then
        some (.finite (octToNat ds))
      else if (x = 'b' ∨ x = 'B') ∧ ¬ds.isEmpty ∧ ds.all isBinDigit then
        some (.finite (binToNat ds))
      else decSigned t
    | _ => decSigned t

/-- JavaScript `Number(string)` conversion (`ToNumber` on a string):
`none` means the result is NaN, so `isNaN(Number(s))` is `(jsToNumber s).isNone`.
A whitespace-only string converts to `0`. -/
def jsToNumber (s : Chars) : Option JsNum :=
  match jsTrim s with
  | [] => some (.finite 0)
  | c :: t => parseStrNum (c :: t)

/-! ## JavaScript string conversion (used by regex `test` and template literals) -/

/-- Decimal digit characters of a natural number. -/
def natDigits (n : Nat) : String := toString n

/-- Smallest exponent `k` (searched up to 600) with `d ∣ 10 ^ k`; every
denominator produced by this development divides a power of ten. -/
def decExponent (d : Nat) : Option Nat :=
  (List.range 600).find? (fun k => decide (10 ^ k % d = 0))

/-- String form of a JavaScript number.  Integers are rendered exactly as JS
does for magnitudes below `1e21`; terminating decimal fractions are rendered
in positional notation.  JS switches to exponential notation for magnitudes
at or above `1e21` or below `1e-6`; that switch is not modelled — the only
consumer of this function in the source is the name-format regex
`^[a-z][a-z0-9_-]*$`-style test, which fails on both notations alike (each
starts with a digit, a sign, or `I`). -/
def jsNumToString (n : JsNum) : String :=
  match n with
  | .posInf => "Infinity"
  | .negInf => "-Infinity"
  | .finite q =>
    if q.den = 1 then
      (if q.num < 0 then "-" else "") ++ natDigits q.num.natAbs
    else
      match decExponent q.den with
      | some k =>
        let m : Nat := (q.num.natAbs * 10 ^ k) / q.den
        let digits := natDigits m
        let padded :=
          if digits.length ≤ k then String.mk (List.replicate (k + 1 - digits.length) '0') ++ digits
          else digits
        (if q.num < 0 then "-" else "") ++
          String.mk (padded.data.take (padded.length - k)) ++ "." ++
          String.mk (padded.data.drop (padded.length - k))
      | none => (if q.num < 0 then "-" else "") ++ natDigits q.num.natAbs ++ "/" ++ natDigits q.den

mutual

/-- JavaScript `String(v)` / template-literal interpolation.  Arrays render as
`Array.prototype.join(",")`, where `null` and `undefined` elements render
empty. -/
def JsValue.toJsString : JsValue → String
  | .undefined => "undefined"
  | .null => "null"
  | .bool true => "true"
  | .bool false => "false"
  | .num n => jsNumToString n
  | .str s => s
  | .arr xs => String.intercalate "," (jsElemStrings xs)
  | .obj _ => "[object Object]"

/-- Element strings for `Array.prototype.join`. -/
def jsElemStrings : List JsValue → List String
  | [] => []
  | .undefined :: vs => "" :: jsElemStrings vs
  | .null :: vs => "" :: jsElemStrings vs
  | v :: vs => v.toJsString :: jsElemStrings vs

end

/-! ## Strict JSON parsing (`JSON.parse`) -/

/-- JSON insignificant whitespace. -/
def jsonWsB (c : Char) : Bool := c == ' ' || c == '\t' || c == '\n' || c == '\r'

def skipJsonWs (s : Chars) : Chars := s.dropWhile jsonWsB

/-- Four hex digits (for `\uXXXX` escapes). -/
def hexQuad : Chars → Option (Nat × Chars)
  | a :: b :: c :: d :: r =>
    if isHexDigit a && isHexDigit b && isHexDigit c && isHexDigit d then
      some (((hexDigitVal a * 16 + hexDigitVal b) * 16 + hexDigitVal c) * 16 + hexDigitVal d, r)
    else none
  | _ => none

/-- Body of a JSON string after the opening quote: content characters and the
rest of the input after the closing quote.  Raw control characters are a
syntax error; `\uXXXX` surrogate pairs combine, and a lone surrogate becomes
the replacement character (JS strings can hold lone UTF-16 surrogates, Lean
`Char` cannot; no claim exercises lone surrogates). -/
def jpStringBody : Nat → Chars → Option (Chars × Chars)
  | 0, _ => none
  | _, [] => none
  | fuel + 1, c :: r =>
    if c = '"' then some ([], r)
    else if c = '\\' then
      match r with
      | [] => none
      | e :: r2 =>
        if e = '"' then (jpStringBody fuel r2).map (fun p => ('"' :: p.1, p.2))
        else if e = '\\' then (jpStringBody fuel r2).map (fun p => ('\\' :: p.1, p.2))
        else if e = '/' then (jpStringBody fuel r2).map (fun p => ('/' :: p.1, p.2))
        else if e = 'b' then (jpStringBody fuel r2).map (fun p => ('\x08' :: p.1, p.2))
        else if e = 'f' then (jpStringBody fuel r2).map (fun p => ('\x0c' :: p.1, p.2))
        else if e = 'n' then (jpStringBody fuel r2).map (fun p => ('\n' :: p.1, p.2))
        else if e = 'r' then (jpStringBody fuel r2).map (fun p => ('\r' :: p.1, p.2))
        else if e = 't' then (jpStringBody fuel r2).map (fun p => ('\t' :: p.1, p.2))
        else if e = 'u' then
          match hexQuad r2 with
          | none => none
          | some (n, r3) =>
            if 0xD800 ≤ n ∧ n ≤ 0xDBFF then
              match r3 with
              | '\\' :: 'u' :: r4 =>
                match hexQuad r4 with
                | some (m, r5) =>
                  if 0xDC00 ≤ m ∧ m ≤ 0xDFFF then
                    (jpStringBody fuel r5).map (fun p =>
                      (Char.ofNat (0x10000 + (n - 0xD800) * 0x400 + (m - 0xDC00)) :: p.1, p.2))
                  else (jpStringBody fuel r3).map (fun p => ('�' :: p.1, p.2))
                | none => (jpStringBody fuel r3).map (fun p => ('�' :: p.1, p.2))
              | _ => (jpStringBody fuel r3).map (fun p => ('�' :: p.1, p.2))
            else if 0xDC00 ≤ n ∧ n ≤ 0xDFFF then
              (jpStringBody fuel r3).map (fun p => ('�' :: p.1, p.2))
            else (jpStringBody fuel r3).map (fun p => (Char.ofNat n :: p.1, p.2))
        else none
    else if c.toNat < 32 then none
    else (jpStringBody fuel r).map (fun p => (c :: p.1, p.2))

/-- One or more decimal digits. -/
def jpDigits (s : Chars) : Option (Chars × Chars) :=
  let ds := s.takeWhile isDecDigit
  if ds.isEmpty then none else some (ds, s.dropWhile isDecDigit)

/-- JSON number: `-? (0 | [1-9][0-9]*) (. [0-9]+)? ([eE][+-]?[0-9]+)?`,
longest match; value is the exact rational. -/
def jpNumber (s : Chars) : Option (ℚ × Chars) :=
  let signed : Bool × Chars :=
    match s with
    | '-' :: r => (true, r)
    | _ => (false, s)
  let intPart : Option (Chars × Chars) :=
    match signed.2 with
    | '0' :: r => some (['0'], r)
    | c :: _ => if isDecDigit c then jpDigits signed.2 else none
    | [] => none
  match intPart with
  | none => none
  | some (ds, s2) =>
    let fracPart : Option (Chars × Chars) :=
      match s2 with
      | '.' :: r => (jpDigits r).map (fun p => (p.1, p.2))
      | _ => some ([], s2)
    match fracPart with
    | none => none
    | some (fs, s3) =>
      let expPart : Option (Int × Chars) :=
        match s3 with
        | c :: r =>
          if c = 'e' ∨ c = 'E' then
            match r with
            | '+' :: r2 => (jpDigits r2).map (fun p => ((digitsToNat p.1 : Int), p.2))
            | '-' :: r2 => (jpDigits r2).map (fun p => (-(digitsToNat p.1 : Int), p.2))
            | _ => (jpDigits r).map (fun p => ((digitsToNat p.1 : Int), p.2))
          else some (0, s3)
        | [] => some (0, s3)
      match expPart with
      | none => none
      | some (e, s4) =>
        let mag : ℚ := ((digitsToNat (ds ++ fs) : ℚ) / (10 : ℚ) ^ fs.length) * tenPow e
        some (if signed.1 then -mag else mag, s4)

mutual

/-- Parse one JSON value (after skipping leading whitespace), returning it and
the rest of the input. -/
def jpValue : Nat → Chars → Option (JsValue × Chars)
  | 0, _ => none
  | fuel + 1, s =>
    match skipJsonWs s with
    | [] => none
    | c :: r =>
      if c = '{' then
        match skipJsonWs r with
        | '}' :: r2 => some (.obj [], r2)
        | _ => jpMembers fuel r []
      else if c = '[' then
        match skipJsonWs r with
        | ']' :: r2 => some (.arr [], r2)
        | _ => jpElems fuel r []
      else if c = '"' then
        (jpStringBody (r.length + 1) r).map (fun p => (.str (String.mk p.1), p.2))
      else if ("true".data).isPrefixOf (c :: r) then some (.bool true, r.drop 3)
      else if ("false".data).isPrefixOf (c :: r) then some (.bool false, r.drop 4)
      else if ("null".data).isPrefixOf (c :: r) then some (.null, r.drop 3)
      else (jpNumber (c :: r)).map (fun p => (.num (.finite p.1), p.2))

/-- Parse the members of a JSON object after its `{` (at least one member);
duplicate keys follow JS assignment semantics (last occurrence wins). -/
def jpMembers : Nat → Chars → List (String × JsValue) → Option (JsValue × Chars)
  | 0, _, _ => none
  | fuel + 1, s, acc =>
    match skipJsonWs s with
    | '"' :: r =>
      match jpStringBody (r.length + 1) r with
      | none => none
      | some (key, r2) =>
        match skipJsonWs r2 with
        | ':' :: r3 =>
          match jpValue fuel r3 with
          | none => none
          | some (v, r4) =>
            match skipJsonWs r4 with
            | ',' :: r5 => jpMembers fuel r5 (setKey acc (String.mk key) v)
            | '}' :: r5 => some (.obj (setKey acc (String.mk key) v), r5)
            | _ => none
        | _ => none
    | _ => none

/-- Parse the elements of a JSON array after its `[` (at least one element). -/
def jpElems : Nat → Chars → List JsValue → Option (JsValue × Chars)
  | 0, _, _ => none
  | fuel + 1, s, acc =>
    match jpValue fuel s with
    | none => none
    | some (v, r) =>
      match skipJsonWs r with
      | ',' :: r2 => jpElems fuel r2 (acc ++ [v])
      | ']' :: r2 => some (.arr (acc ++ [v]), r2)
      | _ => none

end

/-- JavaScript `JSON.parse(s)`: `none` models a thrown `SyntaxError`.  The
fuel `2 * s.length + 8` dominates the recursion depth, which consumes at
least one input character per unit. -/
def jsonParse (s : Chars) : Option JsValue :=
  match jpValue (2 * s.length + 8) s with
  | some (v, rest) => if (skipJsonWs rest).isEmpty then some v else none
  | none => none

/-! ## Value normalization (`normalizeValue`) and parameter trees (`parseParameters`) -/

/-- Whether the trimmed text starts with `a` and ends with `b`
(`trimmed.startsWith(a) && trimmed.endsWith(b)` for one-character markers). -/
def wrappedIn (t : Chars) (a b : Char) : Bool :=
  t.head? == some a && t.getLast? == some b

/-- Embedding of `XmlParser.normalizeValue`: the ordered type-inference
cascade — empty, boolean, number, JSON object/array, text — first matching
rule wins.  `Char.toLower` models `toLowerCase` on the ASCII range (the only
range the boolean rule can match). -/
def normalizeValue (value : Chars) : JsValue :=
  let trimmed := jsTrim value
  if trimmed.isEmpty then .str ""
  else if trimmed.map Char.toLower = "true".data then .bool true
  else if trimmed.map Char.toLower = "false".data then .bool false
  else
    match jsToNumber trimmed with
    | some n => .num n
    | none =>
      if wrappedIn trimmed '{' '}' || wrappedIn trimmed '[' ']' then
        match jsonParse trimmed with
        | some j => j
        | none => .str (String.mk trimmed)
      else .str (String.mk trimmed)

/-- Embedding of `XmlParser.hasNestedTags`: whether the generic tag-pair
regex matches anywhere in the trimmed content. -/
def hasNestedTags (content : Chars) : Bool :=
  (scanTag (jsTrim content)).isSome

/-- Scanning loop for the global tag-pair regex, structurally recursive on a
fuel bound.  A successful `scanTag` always consumes at least one character of
the remainder, so `s.length + 1` units of fuel are never exhausted; this is
proved below (`tagMatchesGo_fuel_irrelevant`), and `tagMatchesList_eq` shows
the wrapper satisfies the intended loop recurrence exactly. -/
def tagMatchesGo : Nat → Chars → List (Chars × Chars)
  | 0, _ => []
  | fuel + 1, s =>
    match scanTag s with
    | none => []
    | some (nm, inner, rest) => (nm, inner) :: tagMatchesGo fuel rest

/-- The successive matches of the global tag-pair regex over `s`
(name, inner content), in document order, each scan resuming after the end of
the previous match. -/
def tagMatchesList (s : Chars) : List (Chars × Chars) :=
  tagMatchesGo (s.length + 1) s

/-- Accumulate matched (name, value) entries into a JS object, in order, with
JS assignment semantics for duplicate keys. -/
def buildParams (entries : List (String × JsValue)) : List (String × JsValue) :=
  entries.foldl (fun m p => setKey m p.1 p.2) []

/-- Recursive descent of `parseParameters`, structurally recursive on a fuel
bound.  Each nested inner content is strictly shorter than its enclosing
content, so `content.length + 1` units of fuel are never exhausted; this is
proved below (`parseParametersGo_fuel_irrelevant`), and
`parseParameters_eq_buildParams` shows the wrapper satisfies the intended
recurrence exactly. -/
def parseParametersGo : Nat → Chars → List (String × JsValue)
  | 0, _ => []
  | fuel + 1, content =>
    buildParams ((tagMatchesList content).map (fun p =>
      (String.mk p.1,
        if hasNestedTags p.2 then .obj (parseParametersGo fuel p.2)
        else normalizeValue p.2)))

/-- Embedding of `XmlParser.parseParameters`: for each regex match, recurse
into inner content that itself contains a complete tag pair (storing the
nested tree as an object), otherwise normalize the inner content as a scalar.
The `try`/`catch` around the recursive call appears in `entryValueWith`
below; the recursion itself is total, so the caught branch is expressed
there over an arbitrary fallible sub-parser. -/
def parseParameters (content : Chars) : List (String × JsValue) :=
  parseParametersGo (content.length + 1) content

/-- The matched (name, value) entries of `parseParameters` before they are
folded into the result object. -/
def paramEntries (content : Chars) : List (String × JsValue) :=
  (tagMatchesList content).map (fun p =>
    (String.mk p.1,
      if hasNestedTags p.2 then .obj (parseParameters p.2)
      else normalizeValue p.2))

/-- The source's `try { parameters[name] = this.parseParameters(value) }
catch { parameters[name] = this.normalizeValue(value) }` as an explicit
try-then-fallback combinator over an arbitrary fallible sub-parser `recFn`:
any error from the recursive parse is swallowed and the raw inner content is
normalized as a scalar instead. -/
def entryValueWith {ε : Type} (recFn : Chars → Except ε (List (String × JsValue)))
    (inner : Chars) : JsValue :=
  if hasNestedTags inner then
    match recFn inner with
    | .ok t => .obj t
    | .error _ => normalizeValue inner
  else normalizeValue inner

/-- One level of `parseParameters` parametrized by the sub-parser used for
nested content; note the result type has no error component — sub-parser
failures cannot propagate. -/
def paramsWith {ε : Type} (recFn : Chars → Except ε (List (String × JsValue)))
    (content : Chars) : List (String × JsValue) :=
  buildParams ((tagMatchesList content).map (fun p =>
    (String.mk p.1, entryValueWith recFn p.2)))

/-! ## Request validation and assembly -/

/-- Embedding of `ParsedToolRequest`.  The TypeScript annotations type
`toolName`/`serverName` as `string`, but the runtime values come untyped from
the parameter tree, so the fields carry `JsValue`. -/
structure ParsedToolRequest where
  toolName : JsValue
  serverName : JsValue
  arguments : JsValue
  raw : Chars

/-- The `XmlParseError` values thrown by the parser, one constructor per
throw site (the spec's reason codes: `missing-field` covers `missingField`,
`missingToolName` and `missingServerName`; `invalid-structure` is
`invalidArguments`; `malformed-json` is `malformedJson`; `invalid-format`
covers the two format constructors). -/
inductive XmlParseError where
  | invalidRequestFormat
  | missingField (field : String)
  | malformedJson
  | missingToolName
  | missingServerName
  | invalidArguments
  | invalidServerFormat (value : String)
  | invalidToolFormat (value : String)
deriving DecidableEq

/-- Message string of each error, as produced by the source's `throw new
XmlParseError(...)` sites. -/
def XmlParseError.message : XmlParseError → String
  | .invalidRequestFormat => "Invalid tool request format"
  | .missingField f => "Missing " ++ f ++ " in tool request"
  | .malformedJson => "Invalid JSON in tool arguments"
  | .missingToolName => "Missing tool name"
  | .missingServerName => "Missing server_name in tool request"
  | .invalidArguments => "Invalid or missing arguments in tool request"
  | .invalidServerFormat v => "Invalid server name format: " ++ v
  | .invalidToolFormat v => "Invalid tool name format: " ++ v

def isLowerAlpha (c : Char) : Bool := 'a' ≤ c && c ≤ 'z'

/-- Embedding of `XmlParser.isValidToolName`: `^[a-z][a-z0-9_]*$`. -/
def isValidToolName (name : String) : Bool :=
  match name.data with
  | [] => false
  | c :: rest => isLowerAlpha c && rest.all (fun d => isLowerAlpha d || isDecDigit d || d == '_')

/-- The server-name format regex `^[a-z][a-z0-9-]*$`. -/
def isValidServerName (name : String) : Bool :=
  match name.data with
  | [] => false
  | c :: rest => isLowerAlpha c && rest.all (fun d => isLowerAlpha d || isDecDigit d || d == '-')

/-- Embedding of `XmlParser.validateToolRequest`: five short-circuiting
checks in source order; `none` means the request is accepted (the source
returns normally), `some e` means `throw e`.  The format regexes are applied
to the JS string conversion of the field, as `RegExp.test` does. -/
def validateToolRequest (r : ParsedToolRequest) : Option XmlParseError :=
  if !r.toolName.truthy then some .missingToolName
  else if !r.serverName.truthy then some .missingServerName
  else if !r.arguments.truthy || !r.arguments.typeofObject then some .invalidArguments
  else if !isValidServerName r.serverName.toJsString then
    some (.invalidServerFormat r.serverName.toJsString)
  else if !isValidToolName r.toolName.toJsString then
    some (.invalidToolFormat r.toolName.toJsString)
  else none

/-- Tail of `XmlParser.parseToolRequest` after the `arguments` value has been
resolved: assemble the candidate request and run the validator. -/
def finishRequest (params : List (String × JsValue)) (args : JsValue) (raw : Chars) :
    Except XmlParseError ParsedToolRequest :=
  let r : ParsedToolRequest :=
    { toolName := jsGet params "tool_name"
      serverName := jsGet params "server_name"
      arguments := args
      raw := raw }
  match validateToolRequest r with
  | some e => .error e
  | none => .ok r

/-- Body of `XmlParser.parseToolRequest` applied to the inner content of a
matched block (the spec's `ToolRequestBuilder.build`): parse the parameter
tree, require the three keys (JS truthiness) in order, JSON-parse a string
`arguments`, assemble and validate. -/
def buildToolRequest (content raw : Chars) : Except XmlParseError ParsedToolRequest :=
  let params := parseParameters content
  if !(jsGet params "server_name").truthy then .error (.missingField "server_name")
  else if !(jsGet params "tool_name").truthy then .error (.missingField "tool_name")
  else if !(jsGet params "arguments").truthy then .error (.missingField "arguments")
  else
    match jsGet params "arguments" with
    | .str s =>
      match jsonParse s.data with
      | none => .error .malformedJson
      | some j => finishRequest params j raw
    | v => finishRequest params v raw

def openTagL : Chars := "<use_mcp_tool>".data

def closeTagL : Chars := "</use_mcp_tool>".data

/-- Inner group of `/<use_mcp_tool>([\s\S]*?)<\/use_mcp_tool>/` on `text`:
content between the first opening tag and the first closing tag after it. -/
def extractInner (text : Chars) : Option Chars :=
  match findSub openTagL text with
  | none => none
  | some p =>
    match findSub closeTagL ((text.drop p).drop openTagL.length) with
    | none => none
    | some q => some (((text.drop p).drop openTagL.length).take q)

/-- Embedding of `XmlParser.parseToolRequest` on a whole block text. -/
def parseToolRequest (text : Chars) : Except XmlParseError ParsedToolRequest :=
  match extractInner text with
  | none => .error .invalidRequestFormat
  | some content => buildToolRequest content text

/-! ## Batch extraction (`parseToolRequests`) -/

/-- Scanning loop for the block regex, structurally recursive on a fuel
bound.  Each match consumes at least one character of the input, so
`s.length + 1` units of fuel are never exhausted; this is proved below
(`extractBlocksGo_fuel_irrelevant`), and `extractBlocks_eq` shows the
wrapper satisfies the intended loop recurrence exactly. -/
def extractBlocksGo : Nat → Chars → List Chars
  | 0, _ => []
  | fuel + 1, s =>
    match findSub openTagL s with
    | none => []
    | some p =>
      match findSub closeTagL ((s.drop p).drop openTagL.length) with
      | none => []
      | some q =>
        ((s.drop p).take (openTagL.length + q + closeTagL.length)) ::
          extractBlocksGo fuel (((s.drop p).drop openTagL.length).drop (q + closeTagL.length))

/-- The successive matches of the block regex
`/(<use_mcp_tool>[\s\S]*?<\/use_mcp_tool>)/g`: each match runs from an
occurrence of the literal opening tag to the first occurrence of the literal
closing tag after it, and the scan resumes after the match. -/
def extractBlocks (s : Chars) : List Chars :=
  extractBlocksGo (s.length + 1) s

/-- The result of a batch extraction: the returned requests plus the messages
passed to the injected logging collaborator (`logger.warn`), each in order. -/
structure ExtractResult where
  requests : List ParsedToolRequest
  warnings : List String
deriving Inhabited

/-- The diagnostic logged when a block is skipped. -/
def warnFor (e : XmlParseError) : String :=
  "Skipping invalid tool request: " ++ e.message

/-- The `while`/`try`/`catch` loop of `parseToolRequests`, parametrized by
the per-block builder so the catch structure is explicit: an `XmlParseError`
(`Sum.inl`) is logged and the loop continues; any other error (`Sum.inr`) is
rethrown, aborting the whole extraction. -/
def runBlocks {ε : Type} (buildFn : Chars → Except (XmlParseError ⊕ ε) ParsedToolRequest) :
    List Chars → Except ε ExtractResult
  | [] => .ok ⟨[], []⟩
  | b :: bs =>
    match buildFn b with
    | .ok r => (runBlocks buildFn bs).map (fun res => ⟨r :: res.requests, res.warnings⟩)
    | .error (.inl e) =>
      (runBlocks buildFn bs).map (fun res => ⟨res.requests, warnFor e :: res.warnings⟩)
    | .error (.inr e) => .error e

/-- Batch extraction parametrized by the per-block builder. -/
def parseToolRequestsWith {ε : Type}
    (buildFn : Chars → Except (XmlParseError ⊕ ε) ParsedToolRequest) (text : Chars) :
    Except ε ExtractResult :=
  runBlocks buildFn (extractBlocks text)

/-- The actual per-block builder, whose error type records that
`parseToolRequest` only ever throws `XmlParseError` (every other fallible
operation it performs is wrapped): the rethrow component is `Empty`. -/
def liftBuildErr (b : Chars) : Except (XmlParseError ⊕ Empty) ParsedToolRequest :=
  match parseToolRequest b with
  | .ok r => .ok r
  | .error e => .error (.inl e)

/-- Embedding of `XmlParser.parseToolRequests`: run the per-block builder
over every matched block; since the builder's rethrow component is
uninhabited, the extraction always returns. -/
def parseToolRequests (text : Chars) : ExtractResult :=
  match parseToolRequestsWith liftBuildErr text with
  | .ok res => res
  | .error e => e.elim

/-! ## Spec-side definitions and concrete inputs used by the claims -/

/-- Exponent part per the claim's wording: empty, or `e`/`E`, an optional
sign, and at least one decimal digit reaching the end. -/
def specExpPart : Chars → Bool
  | [] => true
  | c :: r =>
    (c == 'e' || c == 'E') &&
      (match r with
       | '+' :: r2 => !r2.isEmpty && r2.all isDecDigit
       | '-' :: r2 => !r2.isEmpty && r2.all isDecDigit
       | _ => !r.isEmpty && r.all isDecDigit)

/-- Unsigned decimal body per the claim's wording: decimal digits with an
optional fraction part and optional exponent, nothing else. -/
def specUnsignedDecimalBody (t : Chars) : Bool :=
  let ds := t.takeWhile isDecDigit
  let r := t.dropWhile isDecDigit
  match r with
  | '.' :: r2 =>
    let fs := r2.takeWhile isDecDigit
    let r3 := r2.dropWhile isDecDigit
    (!ds.isEmpty || !fs.isEmpty) && specExpPart r3
  | _ => !ds.isEmpty && specExpPart r

/-- The predicate asserted by the claim for the Number rule, taken from the
spec's words: the entire trimmed text is a finite decimal numeric literal —
decimal digits, optional sign, optional exponent, no partial or trailing
garbage (every string it accepts denotes a finite value).  This is the
spec-side definition to be compared against the code's `jsToNumber`. -/
def specFiniteDecimalNumeral (t : Chars) : Bool :=
  match t with
  | '+' :: r => specUnsignedDecimalBody r
  | '-' :: r => specUnsignedDecimalBody r
  | _ => specUnsignedDecimalBody t

/-- The blocks `bs` occur in `text` in this order, pairwise disjoint, each as
a contiguous substring (document order). -/
inductive BlocksInOrder : Chars → List Chars → Prop where
  | nil (t : Chars) : BlocksInOrder t []
  | cons (pre b rest : Chars) (bs : List Chars) (h : BlocksInOrder rest bs) :
      BlocksInOrder (pre ++ (b ++ rest)) (b :: bs)

/-- A well-formed block: server `s`, tool `t`, arguments `[1]`. -/
def okBlock : Chars :=
  "<use_mcp_tool><server_name>s</server_name><tool_name>t</tool_name><arguments>[1]</arguments></use_mcp_tool>".data

/-- A malformed block: the `tool_name` tag is missing. -/
def badBlock : Chars :=
  "<use_mcp_tool><server_name>s</server_name><arguments>[1]</arguments></use_mcp_tool>".data

/-- A text with exactly three blocks, the middle one malformed, interleaved
with prose. -/
def threeBlockText : Chars :=
  "A".data ++ okBlock ++ "B".data ++ badBlock ++ "C".data ++ okBlock ++ "D".data

/-- A text in which the opening marker repeats before any closing marker. -/
def nestedOpenText : Chars := "x<use_mcp_tool>a<use_mcp_tool>b</use_mcp_tool>y".data

/-- The single block the regex finds in `nestedOpenText`: the first closing
marker terminates the block opened by the first opening marker. -/
def nestedOpenBlock : Chars := "<use_mcp_tool>a<use_mcp_tool>b</use_mcp_tool>".data

/-! ## Loop recurrences: the fuel bounds are never exhausted -/

/-- A successful `scanTag` consumes input: both the inner content and the
remainder are strictly shorter than the input (the match spans at least the
delimiters). -/
theorem scanTag_length_lt :
    ∀ (s nm inner rest : Chars), scanTag s = some (nm, inner, rest) →
      inner.length < s.length ∧ rest.length < s.length := by
  intro s
  induction s with
  | nil => intro nm inner rest h; simp [scanTag] at h
  | cons c t ih =>
    intro nm inner rest h
    simp only [scanTag] at h
    split at h
    · split at h
      · split at h
        · exact (ih _ _ _ h).imp (fun h1 => by simpa using Nat.lt_succ_of_lt h1)
            (fun h1 => by simpa using Nat.lt_succ_of_lt h1)
        · split at h
          · simp only [Option.some.injEq, Prod.mk.injEq] at h
            obtain ⟨-, rfl, rfl⟩ := h
            constructor
            · simp only [List.length_take, List.length_drop, List.length_cons]
              omega
            · simp only [List.length_drop, List.length_cons]
              omega
          · exact (ih _ _ _ h).imp (fun h1 => by simpa using Nat.lt_succ_of_lt h1)
              (fun h1 => by simpa using Nat.lt_succ_of_lt h1)
      · exact (ih _ _ _ h).imp (fun h1 => by simpa using Nat.lt_succ_of_lt h1)
          (fun h1 => by simpa using Nat.lt_succ_of_lt h1)
    · exact (ih _ _ _ h).imp (fun h1 => by simpa using Nat.lt_succ_of_lt h1)
        (fun h1 => by simpa using Nat.lt_succ_of_lt h1)

/-- Any fuel beyond the input's length yields the same matches. -/
theorem tagMatchesGo_fuel_irrelevant :
    ∀ (fuel : Nat) (s : Chars), s.length < fuel → tagMatchesGo fuel s = tagMatchesList s := by
  intro fuel
  induction fuel using Nat.strong_induction_on with
  | _ fuel ih =>
    intro s hs
    match fuel, hs with
    | f + 1, hs =>
      rcases hscan : scanTag s with _ | ⟨nm, inner, rest⟩
      · rw [tagMatchesList]
        simp only [tagMatchesGo, hscan]
      · have hrest := (scanTag_length_lt _ _ _ _ hscan).2
        rw [tagMatchesList]
        simp only [tagMatchesGo, hscan]
        rw [ih f (Nat.lt_succ_self f) rest (by omega),
          ih s.length (by omega) rest (by omega)]

/-- The scanning loop recurrence satisfied by `tagMatchesList`. -/
theorem tagMatchesList_eq (s : Chars) :
    tagMatchesList s =
      match scanTag s with
      | none => []
      | some (nm, inner, rest) => (nm, inner) :: tagMatchesList rest := by
  rcases hscan : scanTag s with _ | ⟨nm, inner, rest⟩
  · rw [tagMatchesList]
    simp only [tagMatchesGo, hscan]
  · have hrest := (scanTag_length_lt _ _ _ _ hscan).2
    rw [tagMatchesList]
    simp only [tagMatchesGo, hscan]
    rw [tagMatchesGo_fuel_irrelevant s.length rest (by omega)]

/-- Every inner content among the matches is strictly shorter than the
scanned content (it sits strictly inside a match). -/
theorem tagMatchesList_mem_length_lt :
    ∀ (s : Chars) (p : Chars × Chars), p ∈ tagMatchesList s → p.2.length < s.length := by
  have go : ∀ (fuel : Nat) (s : Chars) (p : Chars × Chars),
      p ∈ tagMatchesGo fuel s → p.2.length < s.length := by
    intro fuel
    induction fuel with
    | zero => intro s p hp; simp [tagMatchesGo] at hp
    | succ f ih =>
      intro s p hp
      simp only [tagMatchesGo] at hp
      rcases hscan : scanTag s with _ | ⟨nm, inner, rest⟩ <;> rw [hscan] at hp
      · simp at hp
      · rcases List.mem_cons.mp hp with rfl | hp
        · exact (scanTag_length_lt _ _ _ _ hscan).1
        · exact (ih rest p hp).trans (scanTag_length_lt _ _ _ _ hscan).2
  intro s p hp
  exact go _ s p hp

/-- Any fuel beyond the content's length yields the same parameter tree. -/
theorem parseParametersGo_fuel_irrelevant :
    ∀ (fuel : Nat) (content : Chars), content.length < fuel →
      parseParametersGo fuel content = parseParameters content := by
  intro fuel
  induction fuel using Nat.strong_induction_on with
  | _ fuel ih =>
    intro content hc
    match fuel, hc with
    | f + 1, hc =>
      rw [parseParameters]
      simp only [parseParametersGo]
      refine congrArg buildParams (List.map_congr_left ?_)
      intro p hp
      have hlt := tagMatchesList_mem_length_lt content p hp
      by_cases hn : hasNestedTags p.2
      · simp only [hn, if_true]
        rw [ih f (Nat.lt_succ_self f) p.2 (by omega),
          ih content.length (by omega) p.2 (by omega)]
      · simp [hn]

/-- The recursive-descent recurrence satisfied by `parseParameters`: it folds
the matched entries (`paramEntries`) into a record. -/
theorem parseParameters_eq_buildParams (content : Chars) :
    parseParameters content = buildParams (paramEntries content) := by
  rw [parseParameters, paramEntries]
  simp only [parseParametersGo]
  refine congrArg buildParams (List.map_congr_left ?_)
  intro p hp
  have hlt := tagMatchesList_mem_length_lt content p hp
  by_cases hn : hasNestedTags p.2
  · simp only [hn, if_true]
    rw [parseParametersGo_fuel_irrelevant content.length p.2 (by omega)]
  · simp [hn]

/-- Nonempty patterns found within the input bound the input's length. -/
theorem findSub_add_le :
    ∀ (pat s : Chars) (i : Nat), pat ≠ [] → findSub pat s = some i →
      i + pat.length ≤ s.length := by
  intro pat s
  induction s with
  | nil =>
    intro i hp h
    simp only [findSub] at h
    split at h
    · cases h
      cases pat with
      | nil => exact absurd rfl hp
      | cons a l => simp_all [List.isPrefixOf]
    · cases h
  | cons c t ih =>
    intro i hp h
    simp only [findSub] at h
    split at h
    · cases h
      rename_i hpre
      have := List.isPrefixOf_iff_prefix.mp hpre
      simpa using this.length_le
    · rcases Option.map_eq_some'.mp h with ⟨j, hj, rfl⟩
      have := ih j hp hj
      simp only [List.length_cons]
      omega

/-- Any fuel beyond the text's length yields the same blocks. -/
theorem extractBlocksGo_fuel_irrelevant :
    ∀ (fuel : Nat) (s : Chars), s.length < fuel → extractBlocksGo fuel s = extractBlocks s := by
  intro fuel
  induction fuel using Nat.strong_induction_on with
  | _ fuel ih =>
    intro s hs
    match fuel, hs with
    | f + 1, hs =>
      rcases h1 : findSub openTagL s with _ | p
      · rw [extractBlocks]
        simp only [extractBlocksGo, h1]
      · rcases h2 : findSub closeTagL ((s.drop p).drop openTagL.length) with _ | q
        · rw [extractBlocks]
          simp only [extractBlocksGo, h1, h2]
        · have hle := findSub_add_le openTagL s p (by decide) h1
          have hle2 := findSub_add_le closeTagL ((s.drop p).drop openTagL.length) q
            (by decide) h2
          simp only [List.length_drop] at hle2
          have hopen : openTagL.length = 14 := by decide
          have hclose : closeTagL.length = 15 := by decide
          have hrem : (((s.drop p).drop openTagL.length).drop (q + closeTagL.length)).length
              < s.length := by
            simp only [List.length_drop]
            omega
          rw [extractBlocks]
          simp only [extractBlocksGo, h1, h2]
          rw [ih f (Nat.lt_succ_self f) _ (by omega), ih s.length (by omega) _ (by omega)]

/-- The scanning loop recurrence satisfied by `extractBlocks`. -/
theorem extractBlocks_eq (s : Chars) :
    extractBlocks s =
      match findSub openTagL s with
      | none => []
      | some p =>
        match findSub closeTagL ((s.drop p).drop openTagL.length) with
        | none => []
        | some q =>
          ((s.drop p).take (openTagL.length + q + closeTagL.length)) ::
            extractBlocks (((s.drop p).drop openTagL.length).drop (q + closeTagL.length)) := by
  rcases h1 : findSub openTagL s with _ | p
  · rw [extractBlocks]
    simp only [extractBlocksGo, h1]
  · rcases h2 : findSub closeTagL ((s.drop p).drop openTagL.length) with _ | q
    · rw [extractBlocks]
      simp only [extractBlocksGo, h1, h2]
    · have hle := findSub_add_le openTagL s p (by decide) h1
      have hle2 := findSub_add_le closeTagL ((s.drop p).drop openTagL.length) q (by decide) h2
      simp only [List.length_drop] at hle2
      have hopen : openTagL.length = 14 := by decide
      have hclose : closeTagL.length = 15 := by decide
      rw [extractBlocks]
      simp only [extractBlocksGo, h1, h2]
      rw [extractBlocksGo_fuel_irrelevant s.length _ (by simp only [List.length_drop]; omega)]

/-! ## Record lookup lemmas -/

/-- Looking up a key right after setting it yields the new value; other keys
are unaffected (JS object assignment). -/
theorem getKey_setKey (m : List (String × JsValue)) (k : String) (v : JsValue) (k' : String) :
    getKey (setKey m k v) k' = if k' = k then some v else getKey m k' := by
  unfold setKey getKey
  split
  · rename_i hany
    rw [List.find?_map]
    by_cases hk : k' = k
    · subst hk
      have hfun : ((fun p => decide (p.1 = k')) ∘ fun p : String × JsValue =>
          if p.1 = k' then (k', v) else p) = fun p => decide (p.1 = k') := by
        funext q
        by_cases hq : q.1 = k' <;> simp [hq]
      rw [hfun, if_pos rfl]
      rcases hfind : m.find? (fun p => decide (p.1 = k')) with _ | q
      · rw [List.find?_eq_none] at hfind
        rw [List.any_eq_true] at hany
        obtain ⟨p, hp, hpk⟩ := hany
        exact absurd (by simpa using hpk) (by simpa using hfind p hp)
      · have hq := List.find?_some hfind
        simp only [decide_eq_true_eq] at hq
        rw [hfind]
        simp [hq]
    · have hfun : ((fun p => decide (p.1 = k')) ∘ fun p : String × JsValue =>
          if p.1 = k then (k, v) else p) = fun p => decide (p.1 = k') := by
        funext q
        by_cases hq : q.1 = k <;> simp [hq, hk, Ne.symm hk]
      rw [hfun, if_neg hk]
      rcases hfind : m.find? (fun p => decide (p.1 = k')) with _ | q
      · rw [hfind]
        rfl
      · have hq := List.find?_some hfind
        simp only [decide_eq_true_eq] at hq
        rw [hfind]
        simp [hq, hk]
  · rename_i hany
    rw [List.find?_append]
    by_cases hk : k' = k
    · subst hk
      have hnone : m.find? (fun p => decide (p.1 = k')) = none := by
        rw [List.find?_eq_none]
        intro p hp
        simp only [List.any_eq_true, not_exists, not_and] at hany
        simpa using hany p hp
      simp [hnone]
    · have hsingle : [(k, v)].find? (fun p => decide (p.1 = k')) = none := by
        simp [Ne.symm hk]
      rw [hsingle, Option.or_none, if_neg hk]

/-- Folding entries into a record with JS assignment semantics: a lookup
returns the value of the last entry bearing the key, falling back to the
initial record. -/
theorem getKey_foldl_setKey (entries : List (String × JsValue))
    (m₀ : List (String × JsValue)) (k : String) :
    getKey (entries.foldl (fun m p => setKey m p.1 p.2) m₀) k =
      ((entries.reverse.find? (fun p => p.1 = k)).map (·.2)).or (getKey m₀ k) := by
  induction entries generalizing m₀ with
  | nil => simp
  | cons e es ih =>
    simp only [List.foldl_cons, List.reverse_cons, List.find?_append]
    rw [ih]
    rcases hf : es.reverse.find? (fun p => decide (p.1 = k)) with _ | p
    · simp only [hf, Option.map_none', Option.none_or]
      rw [getKey_setKey]
      by_cases hek : e.1 = k
      · rw [if_pos hek.symm, List.find?_cons_of_pos _ (by simpa using hek)]
        simp
      · rw [if_neg (fun h => hek h.symm), List.find?_cons_of_neg _ (by simpa using hek)]
        simp
    · simp [hf]

/-- Claim C8: when a sibling tag name repeats at the same nesting level, the
resulting mapping holds the value of its last occurrence in document order —
a lookup in the parameter tree returns the value of the last matched entry
with that name (so earlier occurrences' values are absent), and concretely
`<a>1</a><a>2</a>` parses to a record mapping `a` to `2` although both
occurrences were matched. -/
theorem C8_last_occurrence_wins :
    (∀ (content : Chars) (k : String),
        getKey (parseParameters content) k =
          ((paramEntries content).reverse.find? (fun p => p.1 = k)).map (·.2)) ∧
    parseParameters ("<a>1</a><a>2</a>".data) = [("a", .num (.finite 2))] ∧
    paramEntries ("<a>1</a><a>2</a>".data) =
      [("a", .num (.finite 1)), ("a", .num (.finite 2))] := by
  refine ⟨fun content k => ?_, ?_, ?_⟩
  · rw [parseParameters_eq_buildParams, buildParams, getKey_foldl_setKey]
    simp [getKey]
  · with_unfolding_all rfl
  · with_unfolding_all rfl

/-! ## Claim C4 — validator cascade -/

/-- Claim C4: `validate` performs its five checks in the fixed order
(toolName non-empty, serverName non-empty, arguments structured, serverName
format, toolName format), short-circuiting on the first failure with a
distinct reason code; concretely a `serverName` of `"Server1"` is rejected
with the invalid-format error and `arguments` bound to a bare string is
rejected with the invalid-structure error. -/
theorem C4_validator_cascade :
    (∀ r : ParsedToolRequest, r.toolName.truthy = false →
        validateToolRequest r = some .missingToolName) ∧
    (∀ r : ParsedToolRequest, r.toolName.truthy = true → r.serverName.truthy = false →
        validateToolRequest r = some .missingServerName) ∧
    (∀ r : ParsedToolRequest, r.toolName.truthy = true → r.serverName.truthy = true →
        (r.arguments.truthy && r.arguments.typeofObject) = false →
        validateToolRequest r = some .invalidArguments) ∧
    (∀ r : ParsedToolRequest, r.toolName.truthy = true → r.serverName.truthy = true →
        r.arguments.truthy = true → r.arguments.typeofObject = true →
        isValidServerName r.serverName.toJsString = false →
        validateToolRequest r = some (.invalidServerFormat r.serverName.toJsString)) ∧
    (∀ r : ParsedToolRequest, r.toolName.truthy = true → r.serverName.truthy = true →
        r.arguments.truthy = true → r.arguments.typeofObject = true →
        isValidServerName r.serverName.toJsString = true →
        isValidToolName r.toolName.toJsString = false →
        validateToolRequest r = some (.invalidToolFormat r.toolName.toJsString)) ∧
    (∀ r : ParsedToolRequest, r.toolName.truthy = true → r.serverName.truthy = true →
        r.arguments.truthy = true → r.arguments.typeofObject = true →
        isValidServerName r.serverName.toJsString = true →
        isValidToolName r.toolName.toJsString = true →
        validateToolRequest r = none) ∧
    validateToolRequest ⟨.str "tool", .str "Server1", .obj [], []⟩ =
      some (.invalidServerFormat "Server1") ∧
    validateToolRequest ⟨.str "tool", .str "server", .str "hi", []⟩ =
      some .invalidArguments := by
  refine ⟨?_, ?_, ?_, ?_, ?_, ?_, ?_, ?_⟩
  · intro r h1
    simp [validateToolRequest, h1]
  · intro r h1 h2
    simp [validateToolRequest, h1, h2]
  · intro r h1 h2 h3
    rcases Bool.and_eq_false_iff.mp h3 with h | h <;>
      simp [validateToolRequest, h1, h2, h]
  · intro r h1 h2 h3 h4 h5
    simp [validateToolRequest, h1, h2, h3, h4, h5]
  · intro r h1 h2 h3 h4 h5 h6
    simp [validateToolRequest, h1, h2, h3, h4, h5, h6]
  · intro r h1 h2 h3 h4 h5 h6
    simp [validateToolRequest, h1, h2, h3, h4, h5, h6]
  · rfl
  · rfl

/-- Witness: the cascade applied at a concrete request with a falsy tool
name. -/
theorem C4_validator_cascade_witness :
    validateToolRequest ⟨.str "", .str "s", .obj [], []⟩ = some .missingToolName :=
  C4_validator_cascade.1 ⟨.str "", .str "s", .obj [], []⟩ rfl

/-! ## Claim C5 — normalization cascade -/

/-- Claim C5: `normalize` applies its five rules in the fixed order empty,
boolean, number, structured, text, the first matching rule winning;
concretely `" 42 "` yields the number `42`, `"TRUE"` yields `true`,
`"{"a":1}"` yields the object `{a: 1}`, `"[1,2,3]"` yields the array
`[1,2,3]`, and `"hello"` yields the text `"hello"`. -/
theorem C5_normalize_cascade :
    (∀ v : Chars, jsTrim v = [] → normalizeValue v = .str "") ∧
    (∀ v : Chars, (jsTrim v).map Char.toLower = "true".data → normalizeValue v = .bool true) ∧
    (∀ v : Chars, (jsTrim v).map Char.toLower = "false".data → normalizeValue v = .bool false) ∧
    (∀ (v : Chars) (n : JsNum), jsTrim v ≠ [] →
        (jsTrim v).map Char.toLower ≠ "true".data →
        (jsTrim v).map Char.toLower ≠ "false".data →
        jsToNumber (jsTrim v) = some n → normalizeValue v = .num n) ∧
    (∀ (v : Chars) (j : JsValue), jsTrim v ≠ [] →
        (jsTrim v).map Char.toLower ≠ "true".data →
        (jsTrim v).map Char.toLower ≠ "false".data →
        jsToNumber (jsTrim v) = none →
        (wrappedIn (jsTrim v) '{' '}' || wrappedIn (jsTrim v) '[' ']') = true →
        jsonParse (jsTrim v) = some j → normalizeValue v = j) ∧
    (∀ v : Chars, jsTrim v ≠ [] →
        (jsTrim v).map Char.toLower ≠ "true".data →
        (jsTrim v).map Char.toLower ≠ "false".data →
        jsToNumber (jsTrim v) = none →
        ((wrappedIn (jsTrim v) '{' '}' || wrappedIn (jsTrim v) '[' ']') = false ∨
          jsonParse (jsTrim v) = none) →
        normalizeValue v = .str (String.mk (jsTrim v))) ∧
    normalizeValue " 42 ".data = .num (.finite 42) ∧
    normalizeValue "TRUE".data = .bool true ∧
    normalizeValue "\x7b\"a\":1\x7d".data = .obj [("a", .num (.finite 1))] ∧
    normalizeValue "[1,2,3]".data =
      .arr [.num (.finite 1), .num (.finite 2), .num (.finite 3)] ∧
    normalizeValue "hello".data = .str "hello" := by
  refine ⟨?_, ?_, ?_, ?_, ?_, ?_, ?_, ?_, ?_, ?_, ?_⟩
  · intro v h
    simp [normalizeValue, h]
  · intro v h
    have hne : jsTrim v ≠ [] := by
      intro he
      rw [he] at h
      exact absurd h.symm (by simp)
    simp [normalizeValue, h, List.isEmpty_iff, hne]
  · intro v h
    have hne : jsTrim v ≠ [] := by
      intro he
      rw [he] at h
      exact absurd h.symm (by simp)
    have hnt : (jsTrim v).map Char.toLower ≠ "true".data := by
      rw [h]
      decide
    simp [normalizeValue, h, hnt, List.isEmpty_iff, hne]
  · intro v n hne h1 h2 h3
    simp [normalizeValue, List.isEmpty_iff, hne, h1, h2, h3]
  · intro v j hne h1 h2 h3 h4 h5
    simp [normalizeValue, List.isEmpty_iff, hne, h1, h2, h3, h4, h5]
  · intro v hne h1 h2 h3 h4
    rcases h4 with h4 | h4
    · simp [normalizeValue, List.isEmpty_iff, hne, h1, h2, h3, h4]
    · by_cases hw : (wrappedIn (jsTrim v) '{' '}' || wrappedIn (jsTrim v) '[' ']') = true <;>
        simp [normalizeValue, List.isEmpty_iff, hne, h1, h2, h3, h4, hw]
  · with_unfolding_all rfl
  · with_unfolding_all rfl
  · with_unfolding_all rfl
  · with_unfolding_all rfl
  · with_unfolding_all rfl

/-- Witness: the number rule applied at a concrete input. -/
theorem C5_normalize_cascade_witness :
    normalizeValue "7".data = .num (.finite 7) :=
  C5_normalize_cascade.2.2.2.1 "7".data (.finite 7) (by decide) (by decide) (by decide)
    (by with_unfolding_all rfl)

/-! ## Claim C2 — required keys, and C10 — truthiness decides presence -/

/-- A block content in which all three required keys are present, with
`server_name` holding the (falsy) number `0`. -/
def c2content : Chars :=
  "<server_name>0</server_name><tool_name>t</tool_name><arguments>\x7b\x7d</arguments>".data

/-- Counterexample to claim C2 as stated: all three top-level keys
`server_name`, `tool_name`, `arguments` are present in the parsed tree (none
is missing), yet `build` produces the missing-field failure for
`server_name`, because its check is JS truthiness of the value, not key
presence. -/
theorem C2_counterexample :
    getKey (parseParameters c2content) "server_name" = some (.num (.finite 0)) ∧
    getKey (parseParameters c2content) "tool_name" = some (.str "t") ∧
    getKey (parseParameters c2content) "arguments" = some (.obj []) ∧
    buildToolRequest c2content c2content = .error (.missingField "server_name") := by
  refine ⟨?_, ?_, ?_, ?_⟩ <;> with_unfolding_all rfl

/-- Claim C2 as amended: `build` requires the three top-level keys
`server_name`, `tool_name`, `arguments` to hold truthy values, checking them
in exactly that order; the first key whose value is absent or falsy produces
the missing-field failure naming that key and aborts the block before any
later check runs (the equations hold whatever the remaining content is). -/
theorem C2_amended_required_keys :
    ∀ content raw : Chars,
      ((jsGet (parseParameters content) "server_name").truthy = false →
        buildToolRequest content raw = .error (.missingField "server_name")) ∧
      ((jsGet (parseParameters content) "server_name").truthy = true →
        (jsGet (parseParameters content) "tool_name").truthy = false →
        buildToolRequest content raw = .error (.missingField "tool_name")) ∧
      ((jsGet (parseParameters content) "server_name").truthy = true →
        (jsGet (parseParameters content) "tool_name").truthy = true →
        (jsGet (parseParameters content) "arguments").truthy = false →
        buildToolRequest content raw = .error (.missingField "arguments")) := by
  intro content raw
  refine ⟨?_, ?_, ?_⟩
  · intro h1
    simp [buildToolRequest, h1]
  · intro h1 h2
    simp [buildToolRequest, h1, h2]
  · intro h1 h2 h3
    simp [buildToolRequest, h1, h2, h3]

/-- Witness: the first check applied to empty content. -/
theorem C2_amended_required_keys_witness :
    buildToolRequest [] [] = .error (.missingField "server_name") :=
  (C2_amended_required_keys [] []).1 (by with_unfolding_all rfl)

/-- Claim C10: a required tag that is present but whose normalized value is
falsy — `false`, the number `0`, or the empty string — produces the same
missing-field failure as an absent tag: presence is decided by truthiness of
the normalized value, not key membership.  The general statements cover each
required key in both the present-but-falsy and the absent case; the concrete
cases exercise contents `false`, `0` and blank for `tool_name`. -/
theorem C10_truthiness_decides_presence :
    (∀ (content raw : Chars) (v : JsValue),
        getKey (parseParameters content) "server_name" = some v → v.truthy = false →
        buildToolRequest content raw = .error (.missingField "server_name")) ∧
    (∀ content raw : Chars, getKey (parseParameters content) "server_name" = none →
        buildToolRequest content raw = .error (.missingField "server_name")) ∧
    (∀ (content raw : Chars) (v : JsValue),
        (jsGet (parseParameters content) "server_name").truthy = true →
        getKey (parseParameters content) "tool_name" = some v → v.truthy = false →
        buildToolRequest content raw = .error (.missingField "tool_name")) ∧
    (∀ content raw : Chars,
        (jsGet (parseParameters content) "server_name").truthy = true →
        getKey (parseParameters content) "tool_name" = none →
        buildToolRequest content raw = .error (.missingField "tool_name")) ∧
    (∀ (content raw : Chars) (v : JsValue),
        (jsGet (parseParameters content) "server_name").truthy = true →
        (jsGet (parseParameters content) "tool_name").truthy = true →
        getKey (parseParameters content) "arguments" = some v → v.truthy = false →
        buildToolRequest content raw = .error (.missingField "arguments")) ∧
    (∀ content raw : Chars,
        (jsGet (parseParameters content) "server_name").truthy = true →
        (jsGet (parseParameters content) "tool_name").truthy = true →
        getKey (parseParameters content) "arguments" = none →
        buildToolRequest content raw = .error (.missingField "arguments")) ∧
    (getKey (parseParameters
        "<server_name>s</server_name><tool_name>false</tool_name>".data) "tool_name" =
      some (.bool false) ∧
     buildToolRequest "<server_name>s</server_name><tool_name>false</tool_name>".data [] =
      .error (.missingField "tool_name")) ∧
    (getKey (parseParameters
        "<server_name>s</server_name><tool_name>0</tool_name>".data) "tool_name" =
      some (.num (.finite 0)) ∧
     buildToolRequest "<server_name>s</server_name><tool_name>0</tool_name>".data [] =
      .error (.missingField "tool_name")) ∧
    (getKey (parseParameters
        "<server_name>s</server_name><tool_name></tool_name>".data) "tool_name" =
      some (.str "") ∧
     buildToolRequest "<server_name>s</server_name><tool_name></tool_name>".data [] =
      .error (.missingField "tool_name")) := by
  refine ⟨?_, ?_, ?_, ?_, ?_, ?_, ?_, ?_, ?_⟩
  · intro content raw v hv htr
    have h : jsGet (parseParameters content) "server_name" = v := by simp [jsGet, hv]
    simp [buildToolRequest, h, htr]
  · intro content raw hv
    have h : jsGet (parseParameters content) "server_name" = .undefined := by simp [jsGet, hv]
    simp [buildToolRequest, h, show JsValue.undefined.truthy = false from rfl]
  · intro content raw v h1 hv htr
    have h : jsGet (parseParameters content) "tool_name" = v := by simp [jsGet, hv]
    simp [buildToolRequest, h1, h, htr]
  · intro content raw h1 hv
    have h : jsGet (parseParameters content) "tool_name" = .undefined := by simp [jsGet, hv]
    simp [buildToolRequest, h1, h, show JsValue.undefined.truthy = false from rfl]
  · intro content raw v h1 h2 hv htr
    have h : jsGet (parseParameters content) "arguments" = v := by simp [jsGet, hv]
    simp [buildToolRequest, h1, h2, h, htr]
  · intro content raw h1 h2 hv
    have h : jsGet (parseParameters content) "arguments" = .undefined := by simp [jsGet, hv]
    simp [buildToolRequest, h1, h2, h, show JsValue.undefined.truthy = false from rfl]
  · exact ⟨by with_unfolding_all rfl, by with_unfolding_all rfl⟩
  · exact ⟨by with_unfolding_all rfl, by with_unfolding_all rfl⟩
  · exact ⟨by with_unfolding_all rfl, by with_unfolding_all rfl⟩

/-- Witness: the present-but-falsy rule applied at a concrete content whose
`server_name` normalizes to the number `0`. -/
theorem C10_truthiness_decides_presence_witness :
    buildToolRequest "<server_name>0</server_name>".data [] =
      .error (.missingField "server_name") :=
  C10_truthiness_decides_presence.1 "<server_name>0</server_name>".data [] (.num (.finite 0))
    (by with_unfolding_all rfl) rfl

/-! ## Claim C3 — arguments resolution -/

/-- Claim C3: when the parsed `arguments` value is a plain string, `build`
attempts a strict JSON parse of it — failure yields the malformed-JSON
failure, success hands the parsed value to the final assembly; when the
parsed `arguments` value is not a string (a nested tree or any other
structured value), it is handed to the final assembly directly, without
re-parsing.  A successfully assembled request carries exactly the resolved
value in its `arguments` field. -/
theorem C3_arguments_resolution :
    (∀ (content raw : Chars) (s : String),
        (jsGet (parseParameters content) "server_name").truthy = true →
        (jsGet (parseParameters content) "tool_name").truthy = true →
        jsGet (parseParameters content) "arguments" = .str s → s.isEmpty = false →
        jsonParse s.data = none →
        buildToolRequest content raw = .error .malformedJson) ∧
    (∀ (content raw : Chars) (s : String) (j : JsValue),
        (jsGet (parseParameters content) "server_name").truthy = true →
        (jsGet (parseParameters content) "tool_name").truthy = true →
        jsGet (parseParameters content) "arguments" = .str s → s.isEmpty = false →
        jsonParse s.data = some j →
        buildToolRequest content raw = finishRequest (parseParameters content) j raw) ∧
    (∀ (content raw : Chars) (v : JsValue),
        (jsGet (parseParameters content) "server_name").truthy = true →
        (jsGet (parseParameters content) "tool_name").truthy = true →
        jsGet (parseParameters content) "arguments" = v → v.truthy = true →
        v.typeofString = false →
        buildToolRequest content raw = finishRequest (parseParameters content) v raw) ∧
    (∀ (params : List (String × JsValue)) (args : JsValue) (raw : Chars)
        (r : ParsedToolRequest),
        finishRequest params args raw = .ok r → r.arguments = args) ∧
    buildToolRequest
        "<server_name>s</server_name><tool_name>t</tool_name><arguments>notjson</arguments>".data
        [] = .error .malformedJson ∧
    buildToolRequest
        "<server_name>s</server_name><tool_name>t</tool_name><arguments><a>1</a></arguments>".data
        [] = .ok ⟨.str "t", .str "s", .obj [("a", .num (.finite 1))], []⟩ := by
  refine ⟨?_, ?_, ?_, ?_, ?_, ?_⟩
  · intro content raw s h1 h2 ha hs hj
    have hst : (JsValue.str s).truthy = true := by
      simp [JsValue.truthy, hs]
    simp [buildToolRequest, h1, h2, ha, hst, hj]
  · intro content raw s j h1 h2 ha hs hj
    have hst : (JsValue.str s).truthy = true := by
      simp [JsValue.truthy, hs]
    simp [buildToolRequest, h1, h2, ha, hst, hj]
  · intro content raw v h1 h2 ha htr hstr
    cases v <;> simp_all [buildToolRequest, JsValue.typeofString]
  · intro params args raw r h
    rw [finishRequest] at h
    split at h
    · cases h
    · cases h
      rfl
  · with_unfolding_all rfl
  · with_unfolding_all rfl

/-- Witness: the malformed-JSON rule applied at a concrete content. -/
theorem C3_arguments_resolution_witness :
    buildToolRequest
        "<server_name>x</server_name><tool_name>y</tool_name><arguments>oops</arguments>".data
        [] = .error .malformedJson :=
  C3_arguments_resolution.1
    "<server_name>x</server_name><tool_name>y</tool_name><arguments>oops</arguments>".data
    [] "oops" (by with_unfolding_all rfl) (by with_unfolding_all rfl)
    (by with_unfolding_all rfl) rfl (by with_unfolding_all rfl)

/-! ## Claim C9 — recursive-parse failures are swallowed -/

/-- Claim C9: the recursive descent into nested content is guarded by a
try-then-fallback: for an arbitrary fallible sub-parser, an error raised by
the recursive parse is swallowed at this level and the raw inner content is
normalized as a scalar fallback instead (first conjunct); a successful
recursive parse becomes the key's nested tree (second conjunct); and the
actual `parseParameters` is exactly this combinator instantiated with the
always-total recursive call, so a recursive-parse failure can never
propagate out of `parse` (whose result type carries no error). -/
theorem C9_nested_failure_swallowed :
    (∀ (ε : Type) (recFn : Chars → Except ε (List (String × JsValue))) (inner : Chars) (e : ε),
        hasNestedTags inner = true → recFn inner = .error e →
        entryValueWith recFn inner = normalizeValue inner) ∧
    (∀ (ε : Type) (recFn : Chars → Except ε (List (String × JsValue)))
        (inner : Chars) (t : List (String × JsValue)),
        hasNestedTags inner = true → recFn inner = .ok t →
        entryValueWith recFn inner = .obj t) ∧
    (∀ content : Chars,
        parseParameters content =
          paramsWith (fun i => (.ok (parseParameters i) : Except Unit _)) content) := by
  refine ⟨?_, ?_, ?_⟩
  · intro ε recFn inner e hn he
    simp [entryValueWith, hn, he]
  · intro ε recFn inner t hn ht
    simp [entryValueWith, hn, ht]
  · intro content
    rw [parseParameters_eq_buildParams, paramsWith, paramEntries]
    refine congrArg buildParams (List.map_congr_left ?_)
    intro p hp
    by_cases hn : hasNestedTags p.2 <;> simp [entryValueWith, hn]

/-- Witness: a sub-parser that always fails is swallowed on a concrete nested
content. -/
theorem C9_nested_failure_swallowed_witness :
    entryValueWith (fun _ => (.error () : Except Unit (List (String × JsValue))))
      "<a>1</a>".data = normalizeValue "<a>1</a>".data :=
  C9_nested_failure_swallowed.1 Unit
    (fun _ => (.error () : Except Unit (List (String × JsValue)))) "<a>1</a>".data ()
    (by with_unfolding_all rfl) rfl

/-! ## Claim C1 — per-block failure isolation -/

set_option maxRecDepth 100000 in
/-- Claim C1: during batch extraction a block whose build succeeds contributes
its request; a block whose build raises an `XmlParseError` (a ParseFailure)
is skipped with exactly one logged diagnostic, extraction continuing with the
next matched block; and a block whose build raises any other error aborts the
whole extraction, propagating that error to the caller.  Concretely, on a
text with exactly three blocks of which one is malformed, `parseToolRequests`
returns exactly two requests and logs exactly one diagnostic. -/
theorem C1_failure_isolation :
    (∀ (ε : Type) (buildFn : Chars → Except (XmlParseError ⊕ ε) ParsedToolRequest)
        (b : Chars) (bs : List Chars) (r : ParsedToolRequest),
        buildFn b = .ok r →
        runBlocks buildFn (b :: bs) =
          (runBlocks buildFn bs).map (fun res => ⟨r :: res.requests, res.warnings⟩)) ∧
    (∀ (ε : Type) (buildFn : Chars → Except (XmlParseError ⊕ ε) ParsedToolRequest)
        (b : Chars) (bs : List Chars) (e : XmlParseError),
        buildFn b = .error (.inl e) →
        runBlocks buildFn (b :: bs) =
          (runBlocks buildFn bs).map (fun res => ⟨res.requests, warnFor e :: res.warnings⟩)) ∧
    (∀ (ε : Type) (buildFn : Chars → Except (XmlParseError ⊕ ε) ParsedToolRequest)
        (b : Chars) (bs : List Chars) (e : ε),
        buildFn b = .error (.inr e) →
        runBlocks buildFn (b :: bs) = .error e) ∧
    (extractBlocks threeBlockText).length = 3 ∧
    (parseToolRequests threeBlockText).requests.length = 2 ∧
    (parseToolRequests threeBlockText).warnings =
      ["Skipping invalid tool request: Missing tool_name in tool request"] := by
  refine ⟨?_, ?_, ?_, ?_, ?_, ?_⟩
  · intro ε buildFn b bs r h
    simp [runBlocks, h]
  · intro ε buildFn b bs e h
    simp [runBlocks, h]
  · intro ε buildFn b bs e h
    simp [runBlocks, h]
  · with_unfolding_all rfl
  · with_unfolding_all rfl
  · with_unfolding_all rfl

/-- Witness: the rethrow rule applied to a concrete builder whose failure is
not a ParseFailure. -/
theorem C1_failure_isolation_witness :
    runBlocks (fun _ => (.error (.inr ()) : Except (XmlParseError ⊕ Unit) ParsedToolRequest))
      [[]] = .error () :=
  C1_failure_isolation.2.2.1 Unit
    (fun _ => (.error (.inr ()) : Except (XmlParseError ⊕ Unit) ParsedToolRequest))
    [] [] () rfl

/-! ## Claim C6 — the Number rule -/

/-- A successful object-member parse always yields an object value. -/
theorem jpMembers_obj_shape :
    ∀ (fuel : Nat) (s : Chars) (acc : List (String × JsValue)) (v : JsValue) (r : Chars),
      jpMembers fuel s acc = some (v, r) → ∃ fs, v = .obj fs := by
  intro fuel
  induction fuel with
  | zero => intro s acc v r h; simp [jpMembers] at h
  | succ f ih =>
    intro s acc v r h
    simp only [jpMembers] at h
    repeat' split at h
    all_goals
      first
        | exact Option.noConfusion h
        | exact ih _ _ _ _ h
        | (simp only [Option.some.injEq, Prod.mk.injEq] at h
           exact ⟨_, h.1.symm⟩)

/-- A successful array-element parse always yields an array value. -/
theorem jpElems_arr_shape :
    ∀ (fuel : Nat) (s : Chars) (acc : List JsValue) (v : JsValue) (r : Chars),
      jpElems fuel s acc = some (v, r) → ∃ xs, v = .arr xs := by
  intro fuel
  induction fuel with
  | zero => intro s acc v r h; simp [jpElems] at h
  | succ f ih =>
    intro s acc v r h
    simp only [jpElems] at h
    repeat' split at h
    all_goals
      first
        | exact Option.noConfusion h
        | exact ih _ _ _ _ h
        | (simp only [Option.some.injEq, Prod.mk.injEq] at h
           exact ⟨_, h.1.symm⟩)

/-- A JSON value parsed from input starting with `{` is an object. -/
theorem jpValue_brace_shape :
    ∀ (fuel : Nat) (t' : Chars) (v : JsValue) (r : Chars),
      jpValue fuel ('{' :: t') = some (v, r) → ∃ fs, v = .obj fs := by
  intro fuel
  cases fuel with
  | zero => intro t' v r h; simp [jpValue] at h
  | succ f =>
    intro t' v r h
    have hsk : skipJsonWs ('{' :: t') = '{' :: t' := rfl
    simp only [jpValue, hsk] at h
    try simp only [reduceIte] at h
    repeat' split at h
    all_goals
      first
        | exact Option.noConfusion h
        | (simp only [Option.some.injEq, Prod.mk.injEq] at h
           exact ⟨_, h.1.symm⟩)
        | exact jpMembers_obj_shape _ _ _ _ _ h

/-- A JSON value parsed from input starting with `[` is an array. -/
theorem jpValue_bracket_shape :
    ∀ (fuel : Nat) (t' : Chars) (v : JsValue) (r : Chars),
      jpValue fuel ('[' :: t') = some (v, r) → ∃ xs, v = .arr xs := by
  intro fuel
  cases fuel with
  | zero => intro t' v r h; simp [jpValue] at h
  | succ f =>
    intro t' v r h
    have hsk : skipJsonWs ('[' :: t') = '[' :: t' := rfl
    simp only [jpValue, hsk] at h
    try simp only [reduceIte] at h
    repeat' split at h
    all_goals
      first
        | exact Option.noConfusion h
        | exact absurd ‹('[' : Char) = '{'› (by decide)
        | (simp only [Option.some.injEq, Prod.mk.injEq] at h
           exact ⟨_, h.1.symm⟩)
        | exact jpElems_arr_shape _ _ _ _ _ h

/-- `JSON.parse` on text starting with `{` yields an object when it
succeeds. -/
theorem jsonParse_brace_obj (t : Chars) (j : JsValue) :
    t.head? = some '{' → jsonParse t = some j → ∃ fs, j = .obj fs := by
  intro hh h
  cases t with
  | nil => simp at hh
  | cons c t' =>
    simp only [List.head?_cons, Option.some.injEq] at hh
    subst hh
    simp only [jsonParse] at h
    split at h
    · rename_i v rest hv
      split at h
      · simp only [Option.some.injEq] at h
        subst h
        exact jpValue_brace_shape _ _ _ _ hv
      · exact Option.noConfusion h
    · exact Option.noConfusion h

/-- `JSON.parse` on text starting with `[` yields an array when it
succeeds. -/
theorem jsonParse_bracket_arr (t : Chars) (j : JsValue) :
    t.head? = some '[' → jsonParse t = some j → ∃ xs, j = .arr xs := by
  intro hh h
  cases t with
  | nil => simp at hh
  | cons c t' =>
    simp only [List.head?_cons, Option.some.injEq] at hh
    subst hh
    simp only [jsonParse] at h
    split at h
    · rename_i v rest hv
      split at h
      · simp only [Option.some.injEq] at h
        subst h
        exact jpValue_bracket_shape _ _ _ _ hv
      · exact Option.noConfusion h
    · exact Option.noConfusion h

/-- A wrapped text starts with its opening marker. -/
theorem wrappedIn_head (t : Chars) (a b : Char) :
    wrappedIn t a b = true → t.head? = some a := by
  intro h
  rw [wrappedIn, Bool.and_eq_true] at h
  exact eq_of_beq h.1

/-- Counterexample to claim C6 as stated: `normalize` classifies `"Infinity"`
and `"0x1a"` as Numbers although neither is a finite decimal numeral in the
sense of the claim's wording (`specFiniteDecimalNumeral`). -/
theorem C6_counterexample :
    normalizeValue "Infinity".data = .num .posInf ∧
    specFiniteDecimalNumeral (jsTrim "Infinity".data) = false ∧
    normalizeValue "0x1a".data = .num (.finite 26) ∧
    specFiniteDecimalNumeral (jsTrim "0x1a".data) = false := by
  refine ⟨?_, ?_, ?_, ?_⟩ <;> with_unfolding_all rfl

/-- Claim C6 as amended: `normalize` classifies a non-empty, non-boolean
trimmed text as a Number exactly when JavaScript `Number(string)` conversion
does not yield NaN — i.e. when the entire trimmed text matches the
ECMAScript string numeric grammar: an optionally signed decimal literal with
optional fraction and exponent, a signed `Infinity`, or an unsigned
hexadecimal, octal, or binary integer literal — including non-finite results
and non-decimal forms.  The concrete conjuncts exhibit the behavior on a
non-finite literal, a hex literal, a signed exponent form, and trailing
garbage. -/
theorem C6_amended_number_rule :
    (∀ s : Chars, jsTrim s ≠ [] →
        (jsTrim s).map Char.toLower ≠ "true".data →
        (jsTrim s).map Char.toLower ≠ "false".data →
        ((∃ n, normalizeValue s = .num n) ↔ (jsToNumber (jsTrim s)).isSome)) ∧
    normalizeValue "+1.5e2".data = .num (.finite 150) ∧
    normalizeValue "12abc".data = .str "12abc" := by
  refine ⟨?_, ?_, ?_⟩
  · intro s hne h1 h2
    rcases hnum : jsToNumber (jsTrim s) with _ | n
    · refine iff_of_false ?_ (by simp)
      rintro ⟨n, hn⟩
      rcases hw : (wrappedIn (jsTrim s) '{' '}' || wrappedIn (jsTrim s) '[' ']') with _ | _
      · simp [normalizeValue, List.isEmpty_iff, hne, h1, h2, hnum, hw] at hn
      · rcases hjp : jsonParse (jsTrim s) with _ | j
        · simp [normalizeValue, List.isEmpty_iff, hne, h1, h2, hnum, hw, hjp] at hn
        · have hj : normalizeValue s = j := by
            simp [normalizeValue, List.isEmpty_iff, hne, h1, h2, hnum, hw, hjp]
          rw [hj] at hn
          subst hn
          have hw' := hw
          rw [Bool.or_eq_true] at hw'
          rcases hw' with hw1 | hw1
          · obtain ⟨fs, hfs⟩ := jsonParse_brace_obj _ _ (wrappedIn_head _ _ _ hw1) hjp
            exact JsValue.noConfusion hfs
          · obtain ⟨xs, hxs⟩ := jsonParse_bracket_arr _ _ (wrappedIn_head _ _ _ hw1) hjp
            exact JsValue.noConfusion hxs
    · refine iff_of_true ⟨n, ?_⟩ (by simp)
      simp [normalizeValue, List.isEmpty_iff, hne, h1, h2, hnum]
  · with_unfolding_all rfl
  · with_unfolding_all rfl

/-- Witness: the amended equivalence applied at the concrete trimmed text
`"0x1a"`. -/
theorem C6_amended_number_rule_witness :
    (∃ n, normalizeValue "0x1a".data = .num n) ↔ (jsToNumber (jsTrim "0x1a".data)).isSome :=
  C6_amended_number_rule.1 "0x1a".data (by decide) (by decide) (by decide)

/-! ## Claim C7 — block boundaries and document order -/

/-- A found index carries a match: the pattern is a prefix of the suffix at
that index. -/
theorem findSub_prefix :
    ∀ (pat s : Chars) (i : Nat), findSub pat s = some i →
      pat.isPrefixOf (s.drop i) = true := by
  intro pat s
  induction s with
  | nil =>
    intro i h
    simp only [findSub] at h
    split at h
    · injection h with h'
      subst h'
      simpa using ‹pat.isPrefixOf ([] : Chars) = true›
    · exact Option.noConfusion h
  | cons c t ih =>
    intro i h
    simp only [findSub] at h
    split at h
    · injection h with h'
      subst h'
      simpa using ‹pat.isPrefixOf (c :: t) = true›
    · rcases Option.map_eq_some'.mp h with ⟨j, hj, rfl⟩
      simpa using ih j hj

/-- A found index is the first: the pattern matches at no earlier index. -/
theorem findSub_min :
    ∀ (pat s : Chars) (i : Nat), findSub pat s = some i →
      ∀ j, j < i → pat.isPrefixOf (s.drop j) = false := by
  intro pat s
  induction s with
  | nil =>
    intro i h
    simp only [findSub] at h
    split at h
    · injection h with h'
      subst h'
      omega
    · exact Option.noConfusion h
  | cons c t ih =>
    intro i h
    simp only [findSub] at h
    split at h
    · injection h with h'
      subst h'
      omega
    · rcases Option.map_eq_some'.mp h with ⟨j', hj', rfl⟩
      intro j hji
      cases j with
      | zero =>
        simpa using Bool.not_eq_true _ ▸ ‹¬pat.isPrefixOf (c :: t) = true›
      | succ k =>
        simpa using ih j' hj' k (by omega)

/-- Conversely, the index of a match preceded by no earlier match is the one
`findSub` returns. -/
theorem findSub_eq_some_of :
    ∀ (pat s : Chars) (i : Nat), pat.isPrefixOf (s.drop i) = true →
      (∀ j, j < i → pat.isPrefixOf (s.drop j) = false) →
      findSub pat s = some i := by
  intro pat s
  induction s with
  | nil =>
    intro i h1 h2
    cases i with
    | zero =>
      have hp : pat = [] := by simpa using h1
      subst hp
      simp [findSub]
    | succ k =>
      have h0 := h2 0 (by omega)
      simp only [List.drop_nil] at h0 h1
      rw [h0] at h1
      exact Bool.noConfusion h1
  | cons c t ih =>
    intro i h1 h2
    cases i with
    | zero =>
      simp only [List.drop_zero] at h1
      simp [findSub, List.isPrefixOf_iff_prefix.mp h1]
    | succ k =>
      have h0 := h2 0 (by omega)
      simp only [List.drop_zero] at h0
      simp only [findSub, h0]
      rw [ih k (by simpa using h1) (fun j hj => by simpa using h2 (j + 1) (by omega))]
      rfl

/-- Shape of one matched block: the `take` between the found opening index
and the found closing index decomposes as the opening tag, the inner content,
and the closing tag, and the closing tag's first occurrence in
`inner ++ closeTagL` is the final one — the nearest closing marker
terminates the block. -/
theorem block_decomp (s : Chars) (p q : Nat)
    (h1 : findSub openTagL s = some p)
    (h2 : findSub closeTagL ((s.drop p).drop openTagL.length) = some q) :
    ∃ inner,
      (s.drop p).take (openTagL.length + q + closeTagL.length) =
        openTagL ++ (inner ++ closeTagL) ∧
      findSub closeTagL (inner ++ closeTagL) = some inner.length := by
  have hpre1 : openTagL.isPrefixOf (s.drop p) = true := findSub_prefix _ _ _ h1
  obtain ⟨u, hu⟩ := List.isPrefixOf_iff_prefix.mp hpre1
  have hau : (s.drop p).drop openTagL.length = u := by
    rw [← hu, List.drop_left]
  rw [hau] at h2
  have hpre2 : closeTagL.isPrefixOf (u.drop q) = true := findSub_prefix _ _ _ h2
  obtain ⟨w, hw⟩ := List.isPrefixOf_iff_prefix.mp hpre2
  have hqle : q + closeTagL.length ≤ u.length := findSub_add_le _ _ _ (by decide) h2
  have htakecl : (u.drop q).take closeTagL.length = closeTagL := by
    rw [← hw, List.take_left]
  have hinner : u.take (q + closeTagL.length) = u.take q ++ closeTagL := by
    rw [List.take_add, htakecl]
  have hinnerlen : (u.take q).length = q := by
    simp only [List.length_take]
    omega
  refine ⟨u.take q, ?_, ?_⟩
  · rw [← hu]
    have harith : openTagL.length + q + closeTagL.length =
        openTagL.length + (q + closeTagL.length) := by omega
    rw [harith, List.take_append, hinner]
  · apply findSub_eq_some_of
    · rw [List.drop_left]
      exact List.isPrefixOf_iff_prefix.mpr (List.prefix_refl _)
    · intro j hj
      rw [hinnerlen] at hj
      by_contra hcon
      have hcon' : closeTagL.isPrefixOf ((u.take q ++ closeTagL).drop j) = true := by
        revert hcon
        cases closeTagL.isPrefixOf ((u.take q ++ closeTagL).drop j) <;> simp
      have hpref : closeTagL <+: (u.take q ++ closeTagL).drop j :=
        List.isPrefixOf_iff_prefix.mp hcon'
      have hudecomp : u = (u.take q ++ closeTagL) ++ u.drop (q + closeTagL.length) := by
        rw [← hinner, List.take_append_drop]
      have hdropu : u.drop j =
          (u.take q ++ closeTagL).drop j ++ u.drop (q + closeTagL.length) := by
        conv =>
          lhs
          rw [hudecomp]
        rw [List.drop_append_eq_append_drop]
        have hjlen : j ≤ (u.take q ++ closeTagL).length := by
          simp only [List.length_append, hinnerlen]
          omega
        have : j - (u.take q ++ closeTagL).length = 0 := by omega
        rw [this, List.drop_zero]
      have hprefu : closeTagL <+: u.drop j := by
        rw [hdropu]
        exact hpref.trans (List.prefix_append _ _)
      have := findSub_min _ _ _ h2 j hj
      rw [List.isPrefixOf_iff_prefix.mpr hprefu] at this
      exact Bool.noConfusion this

/-- Claim C7: every extracted block runs from the literal opening marker to
the nearest following closing marker (the closing marker's first occurrence
in `inner ++ closeTagL` is the final one — first closing marker wins); the
blocks appear in document order as disjoint contiguous substrings of the
input (`BlocksInOrder`), eagerly computed as a finite list; and when the
opening marker repeats before any closing marker, the first closing marker
still terminates the block opened by the first opening marker
(`nestedOpenText` yields exactly the single block `nestedOpenBlock`). -/
theorem C7_block_boundaries :
    (∀ (text b : Chars), b ∈ extractBlocks text →
        ∃ inner, b = openTagL ++ (inner ++ closeTagL) ∧
          findSub closeTagL (inner ++ closeTagL) = some inner.length) ∧
    (∀ text : Chars, BlocksInOrder text (extractBlocks text)) ∧
    extractBlocks nestedOpenText = [nestedOpenBlock] := by
  refine ⟨?_, ?_, ?_⟩
  · have go : ∀ (fuel : Nat) (s b : Chars), b ∈ extractBlocksGo fuel s →
        ∃ inner, b = openTagL ++ (inner ++ closeTagL) ∧
          findSub closeTagL (inner ++ closeTagL) = some inner.length := by
      intro fuel
      induction fuel with
      | zero => intro s b hb; simp [extractBlocksGo] at hb
      | succ f ih =>
        intro s b hb
        simp only [extractBlocksGo] at hb
        rcases h1 : findSub openTagL s with _ | p <;> simp only [h1] at hb
        · simp at hb
        · rcases h2 : findSub closeTagL ((s.drop p).drop openTagL.length) with _ | q <;>
            simp only [h2] at hb
          · simp at hb
          · rcases List.mem_cons.mp hb with rfl | hb
            · exact block_decomp s p q h1 h2
            · exact ih _ _ hb
    intro text b hb
    exact go _ text b hb
  · have go : ∀ (fuel : Nat) (s : Chars), BlocksInOrder s (extractBlocksGo fuel s) := by
      intro fuel
      induction fuel with
      | zero => intro s; exact .nil s
      | succ f ih =>
        intro s
        rcases h1 : findSub openTagL s with _ | p
        · simp only [extractBlocksGo, h1]
          exact .nil s
        · rcases h2 : findSub closeTagL ((s.drop p).drop openTagL.length) with _ | q
          · simp only [extractBlocksGo, h1, h2]
            exact .nil s
          · simp only [extractBlocksGo, h1, h2]
            have hrem : ((s.drop p).drop openTagL.length).drop (q + closeTagL.length) =
                (s.drop p).drop (openTagL.length + q + closeTagL.length) := by
              rw [List.drop_drop, show openTagL.length + (q + closeTagL.length) =
                openTagL.length + q + closeTagL.length from by omega]
            have hs : s = s.take p ++
                ((s.drop p).take (openTagL.length + q + closeTagL.length) ++
                  ((s.drop p).drop openTagL.length).drop (q + closeTagL.length)) := by
              rw [hrem, List.take_append_drop]
              exact (List.take_append_drop p s).symm
            conv =>
              lhs
              rw [hs]
            exact .cons _ _ _ _ (ih _)
    intro text
    exact go _ text
  · with_unfolding_all rfl

/-- Witness: the boundary decomposition applied at the concrete repeated-open
text. -/
theorem C7_block_boundaries_witness :
    ∃ inner, nestedOpenBlock = openTagL ++ (inner ++ closeTagL) ∧
      findSub closeTagL (inner ++ closeTagL) = some inner.length :=
  C7_block_boundaries.1 nestedOpenText nestedOpenBlock
    (by
      rw [show extractBlocks nestedOpenText = [nestedOpenBlock] from
        by with_unfolding_all rfl]
      exact List.mem_singleton.mpr rfl)

end MCPilot
